import Mathlib

/-!
Verification of the GoX IDE core: Project Model (file listing / file tree /
language classification), Builder orchestration, and the CLI command session.

The Go source is shallowly embedded:
* a filesystem rooted at the project directory is a finite tree `FSTree`
  whose children appear in directory-listing order (`os.ReadDir` order);
* `GoProject.Files` / `GoProject.FileTree` / `GetLanguageForFile` are
  translated function-by-function from pkg/core/project.go;
* the builder operations from pkg/core/builder.go are modelled as pure
  functions that record the spawned subprocess commands, with the
  subprocess outcome supplied by an environment parameter (`runner`);
* the CLI session from pkg/cli/cli.go is modelled against the same
  `core.Project`-interface surface the Go code uses: an environment record
  holds the results the interface collaborators would return.
-/

/-- Mirror of core.FileInfo (interfaces.go): one filesystem entry. -/
structure FileInfo where
  Name : String
  Path : String
  RelPath : String
  IsDir : Bool
  Size : Int
  ModTime : Int
  Language : String
deriving Repr, DecidableEq, Inhabited

/-- A finite directory tree: the modelled state of the on-disk filesystem
under the project root.  Children are stored in directory-listing order
(`os.ReadDir` returns entries sorted by name, so concrete witnesses list
children in that order). -/
inductive FSTree where
  | file (nm : String) (content : String) : FSTree
  | dir (nm : String) (children : List FSTree) : FSTree
deriving Repr

def FSTree.nm : FSTree → String
  | .file n _ => n
  | .dir n _ => n

def FSTree.isDir : FSTree → Bool
  | .file _ _ => false
  | .dir _ _ => true

def FSTree.entries : FSTree → List FSTree
  | .file _ _ => []
  | .dir _ cs => cs

/-- Character-list prefix test. -/
def hasPrefixL : List Char → List Char → Bool
  | _, [] => true
  | [], _ :: _ => false
  | c :: cs, p :: ps => c == p && hasPrefixL cs ps

/-- Mirror of strings.HasPrefix. -/
def hasPrefix (s pre : String) : Bool := hasPrefixL s.toList pre.toList

/-- filepath.Join for one extra component (absolute paths in this model
never end in a slash, so no cleaning is needed). -/
def joinPath (p n : String) : String := p ++ "/" ++ n

/-- filepath.Rel(root, filepath.Join(parent, n)) for a walk that starts at
`root` relative path "." : the child of an entry with relative path `r`. -/
def relJoin (r n : String) : String := if r == "." then n else r ++ "/" ++ n

/-- Mirror of core.GetLanguageForFile's use of filepath.Ext: the suffix of
the final path element starting at its last dot, or "" when there is no
dot.  The scan walks the characters from the end, stopping at a path
separator. -/
def extRevAux : List Char → List Char → String
  | [], _ => ""
  | c :: rest, acc =>
    if c = '/' then ""
    else if c = '.' then String.mk (c :: acc)
    else extRevAux rest (c :: acc)

def filepathExt (s : String) : String := extRevAux s.toList.reverse []

/-- strings.ToLower restricted to the ASCII range used by the lookup table. -/
def strToLower (s : String) : String := String.mk (s.toList.map Char.toLower)

/-- Mirror of core.GetLanguageForFile (project.go): pure lookup on the
lower-cased extension with default "text". -/
def GetLanguageForFile (filename : String) : String :=
  let ext := strToLower (filepathExt filename)
  if ext == ".go" then "go"
  else if ext == ".mod" || ext == ".sum" then "gomod"
  else if ext == ".md" then "markdown"
  else if ext == ".json" then "json"
  else if ext == ".yaml" || ext == ".yml" then "yaml"
  else if ext == ".toml" then "toml"
  else if ext == ".sh" then "shell"
  else if ext == ".py" then "python"
  else if ext == ".js" then "javascript"
  else if ext == ".ts" then "typescript"
  else if ext == ".html" then "html"
  else if ext == ".css" then "css"
  else "text"

/-- Mirror of core.GetIconForLanguage (project.go). -/
def GetIconForLanguage (language : String) : String :=
  if language == "go" then "🐹"
  else if language == "gomod" then "📦"
  else if language == "markdown" then "📋"
  else if language == "json" then "🔧"
  else if language == "yaml" || language == "toml" then "⚙️"
  else if language == "shell" then "🖥️"
  else if language == "python" then "🐍"
  else if language == "javascript" then "📜"
  else if language == "typescript" then "📘"
  else if language == "html" then "🌐"
  else if language == "css" then "🎨"
  else "📄"

/-- Mirror of core.GoProject: root path, derived name, and the modelled
state of the filesystem at that root (the Go struct holds a FileSystem
capability instead; every query re-reads it, so the model passes the
current tree). -/
structure GoProject where
  path : String
  name : String
  rootTree : FSTree

/-- Path lookup used by OSFileSystem.Exists, by relative path segments. -/
def fsLookup : FSTree → List String → Option FSTree
  | t, [] => some t
  | .dir _ cs, s :: rest =>
    match cs.find? (fun c => c.nm == s) with
    | some c => fsLookup c rest
    | none => none
  | .file _ _, _ :: _ => none

/-- Mirror of GoProject.IsGoProject: `fs.Exists(filepath.Join(path, "go.mod"))`,
re-evaluated against the current filesystem state on every call. -/
def GoProject.IsGoProject (p : GoProject) : Bool :=
  (fsLookup p.rootTree ["go.mod"]).isSome

/-- FileInfo as constructed inside OSFileSystem.WalkDir for the entry at
`path` (relative path `rel`): name, joined path, rel path, kind, size,
modelled mod time 0, and the detected language. -/
def walkInfo (n path rel : String) (isDir : Bool) (size : Int) : FileInfo :=
  { Name := n, Path := path, RelPath := rel, IsDir := isDir, Size := size,
    ModTime := 0, Language := GetLanguageForFile n }

mutual
/-- The FileInfo sequence OSFileSystem.WalkDir presents to its callback for
the subtree `t` whose own path is `path` and relative path `rel`:
depth-first pre-order, children in listing order. -/
def walkInfos : FSTree → String → String → List FileInfo
  | .file n content, path, rel => [walkInfo n path rel false content.length]
  | .dir n cs, path, rel => walkInfo n path rel true 0 :: walkInfosList cs path rel

def walkInfosList : List FSTree → String → String → List FileInfo
  | [], _, _ => []
  | c :: rest, ppath, prel =>
    walkInfos c (joinPath ppath c.nm) (relJoin prel c.nm) ++ walkInfosList rest ppath prel
end

/-- Mirror of the walk callback in GoProject.Files: the callback only ever
returns nil, so the walk visits every entry; the accumulator collects the
entries the callback appends.  Note that the two skip branches return nil
(not fs.SkipDir), so they suppress only the current entry, never the
subtree below it. -/
def filesStep (acc : List FileInfo) (info : FileInfo) : List FileInfo :=
  if hasPrefix info.Name "." && info.Name != "." then acc
  else if info.IsDir && (info.Name == "vendor" || info.Name == "node_modules") then acc
  else if info.RelPath != "." && !info.IsDir then acc ++ [info]
  else acc

/-- Mirror of GoProject.Files (the error is always nil on a present root,
because the callback never fails). -/
def GoProject.Files (p : GoProject) : List FileInfo :=
  (walkInfos p.rootTree p.path ".").foldl filesStep []

/-- Mirror of core.TreeNode (interfaces.go). -/
inductive TreeNode where
  | mk (File : FileInfo) (Children : List TreeNode) (Level : Nat) (IsLast : Bool) : TreeNode
deriving Repr

def TreeNode.File : TreeNode → FileInfo
  | .mk f _ _ _ => f

def TreeNode.Children : TreeNode → List TreeNode
  | .mk _ cs _ _ => cs

def TreeNode.Level : TreeNode → Nat
  | .mk _ _ l _ => l

def TreeNode.IsLast : TreeNode → Bool
  | .mk _ _ _ b => b

/-- FileInfo as constructed by OSFileSystem.ListFiles for an entry of the
directory at `path`: its RelPath is `filepath.Rel(path, filepath.Join(path,
name))`, i.e. the bare entry name (relative to the listed directory, not
to the project root). -/
def listEntryInfo (path : String) (c : FSTree) : FileInfo :=
  { Name := c.nm, Path := joinPath path c.nm, RelPath := c.nm, IsDir := c.isDir,
    Size := (match c with | .file _ content => content.length | .dir _ _ => 0),
    ModTime := 0, Language := GetLanguageForFile c.nm }

/-- The visibility filter in GoProject.buildTree. -/
def keepVisible (c : FSTree) : Bool :=
  !(hasPrefix c.nm ".") && c.nm != "vendor" && c.nm != "node_modules"

mutual
/-- Mirror of the loop body of GoProject.buildTree: builds the child nodes
for the entries `cs` of the directory at `path`, whose node has level
`level`.  A child is emitted iff it passes `keepVisible`; its IsLast flag
is `i == len(visibleEntries)-1`, expressed here as "no later sibling is
visible"; directories recurse with their own path and level. -/
def buildList : List FSTree → String → Nat → List TreeNode
  | [], _, _ => []
  | c :: rest, path, level =>
    if keepVisible c then
      TreeNode.mk (listEntryInfo path c) (buildSub c path level) (level + 1)
        (!(rest.any keepVisible)) :: buildList rest path level
    else buildList rest path level

def buildSub : FSTree → String → Nat → List TreeNode
  | .file _ _, _, _ => []
  | .dir n cs, path, level => buildList cs (joinPath path n) (level + 1)
end

/-- Mirror of GoProject.FileTree: the root node represents the project
directory itself (Name := p.name, Path := p.path, RelPath := ".",
IsDir := true, zero values elsewhere) at level 0, its children built by
buildTree from the root directory's entries. -/
def GoProject.FileTree (p : GoProject) : TreeNode :=
  TreeNode.mk
    { Name := p.name, Path := p.path, RelPath := ".", IsDir := true,
      Size := 0, ModTime := 0, Language := "" }
    (buildList p.rootTree.entries p.path 0) 0 false

/-- A spawned toolchain subprocess as configured by GoBuilder: its argument
vector, working directory, and which of the caller's standard streams were
attached to it (`cmd.Stdout = os.Stdout` etc.). -/
structure SpawnedCmd where
  argv : List String
  dir : String
  stdoutToCaller : Bool
  stderrToCaller : Bool
  stdinFromCaller : Bool
deriving Repr, DecidableEq

/-- Observable outcome of one builder operation: the subprocesses spawned
(in order), the artifact paths whose removal was attempted, and the value
returned to the caller. -/
def exceptDecEq {α β : Type} [DecidableEq α] [DecidableEq β] :
    (a b : Except α β) → Decidable (a = b)
  | .ok x, .ok y => if h : x = y then isTrue (by rw [h]) else isFalse (by simp [h])
  | .ok _, .error _ => isFalse (by simp)
  | .error _, .ok _ => isFalse (by simp)
  | .error x, .error y => if h : x = y then isTrue (by rw [h]) else isFalse (by simp [h])

instance {α β : Type} [DecidableEq α] [DecidableEq β] : DecidableEq (Except α β) :=
  exceptDecEq

structure BuilderOutcome where
  spawned : List SpawnedCmd
  removed : List String
  result : Except String Unit
deriving Repr, DecidableEq

/-- The error GoBuilder returns for an unrecognized project. -/
def notAGoProject : String := "not a Go project"

/-- Mirror of GoBuilder.Build (builder.go): reject unless IsGoProject, else
spawn `go build .` in the project root with stdout/stderr attached; the
subprocess exit outcome is supplied by the environment as `runner`. -/
def GoBuilder.Build (runner : SpawnedCmd → Except String Unit) (project : GoProject) :
    BuilderOutcome :=
  if !project.IsGoProject then { spawned := [], removed := [], result := .error notAGoProject }
  else
    let cmd : SpawnedCmd :=
      { argv := ["go", "build", "."], dir := project.path,
        stdoutToCaller := true, stderrToCaller := true, stdinFromCaller := false }
    { spawned := [cmd], removed := [], result := runner cmd }

/-- Mirror of GoBuilder.Run: as Build but `go run .`, additionally wiring
the caller's stdin. -/
def GoBuilder.Run (runner : SpawnedCmd → Except String Unit) (project : GoProject) :
    BuilderOutcome :=
  if !project.IsGoProject then { spawned := [], removed := [], result := .error notAGoProject }
  else
    let cmd : SpawnedCmd :=
      { argv := ["go", "run", "."], dir := project.path,
        stdoutToCaller := true, stderrToCaller := true, stdinFromCaller := true }
    { spawned := [cmd], removed := [], result := runner cmd }

/-- Mirror of GoBuilder.Test: as Build but `go test ./...`. -/
def GoBuilder.Test (runner : SpawnedCmd → Except String Unit) (project : GoProject) :
    BuilderOutcome :=
  if !project.IsGoProject then { spawned := [], removed := [], result := .error notAGoProject }
  else
    let cmd : SpawnedCmd :=
      { argv := ["go", "test", "./..."], dir := project.path,
        stdoutToCaller := true, stderrToCaller := true, stdinFromCaller := false }
    { spawned := [cmd], removed := [], result := runner cmd }

/-- Existence check (os.Stat succeeds) for a direct child of the project
root, used by Clean's artifact sweep. -/
def rootChildExists (p : GoProject) (n : String) : Bool :=
  (fsLookup p.rootTree [n]).isSome

/-- Mirror of GoBuilder.Clean: reject unless IsGoProject; best-effort
removal of the binary (with and without ".exe") and the dist directory
(removal failures are logged and ignored, so they do not affect the
result); then spawn `go clean` in the project root.  The Go code sets only
cmd.Dir for this subprocess: none of the caller's streams are attached. -/
def GoBuilder.Clean (runner : SpawnedCmd → Except String Unit) (project : GoProject) :
    BuilderOutcome :=
  if !project.IsGoProject then { spawned := [], removed := [], result := .error notAGoProject }
  else
    let removed := ([project.name, project.name ++ ".exe", "dist"].filter
      (rootChildExists project)).map (joinPath project.path)
    let cmd : SpawnedCmd :=
      { argv := ["go", "clean"], dir := project.path,
        stdoutToCaller := false, stderrToCaller := false, stdinFromCaller := false }
    { spawned := [cmd], removed := removed, result := runner cmd }

/-- Whitespace recognized by strings.TrimSpace / strings.Fields (the ASCII
part of unicode.IsSpace). -/
def isSpaceChar (c : Char) : Bool :=
  c == ' ' || c == '\t' || c == '\n' || c == '\x0b' || c == '\x0c' || c == '\r'

/-- Mirror of strings.TrimSpace. -/
def trimSpace (s : String) : String :=
  String.mk (((s.toList.dropWhile isSpaceChar).reverse.dropWhile isSpaceChar).reverse)

def fieldsAux : List Char → List Char → List String
  | [], cur => if cur.isEmpty then [] else [String.mk cur.reverse]
  | c :: rest, cur =>
    if isSpaceChar c then
      if cur.isEmpty then fieldsAux rest []
      else String.mk cur.reverse :: fieldsAux rest []
    else fieldsAux rest (c :: cur)

/-- Mirror of strings.Fields: whitespace-separated tokens, no empties. -/
def fields (s : String) : List String := fieldsAux s.toList []

def digitsVal (cs : List Char) : Option Nat :=
  if cs.isEmpty then none
  else cs.foldl (fun acc c =>
    match acc with
    | none => none
    | some a => if c.isDigit then some (a * 10 + (c.toNat - 48)) else none) (some 0)

/-- Mirror of strconv.Atoi: optional single sign, then one or more decimal
digits and nothing else; values outside the int64 range are a range error
(so Atoi fails and the CLI falls back to name matching). -/
def strconvAtoi (s : String) : Option Int :=
  match s.toList with
  | [] => none
  | c :: rest =>
    let signed : Bool × List Char :=
      if c == '-' then (true, rest) else if c == '+' then (false, rest) else (false, c :: rest)
    match digitsVal signed.2 with
    | none => none
    | some n =>
      let v : Int := if signed.1 then -(n : Int) else (n : Int)
      if v < -(2 ^ 63) || v > 2 ^ 63 - 1 then none else some v

/-- Mirror of CLI.resolveFile (cli.go): an integer is a 1-based index into
the stored list (anything out of 1..len is the bounds error); otherwise
the first stored entry whose RelPath or Name equals the string wins; no
match is "file not found". -/
def resolveFile (files : List FileInfo) (filename : String) : Except String String :=
  match strconvAtoi filename with
  | some num =>
    if h : num < 1 ∨ (files.length : Int) < num then
      .error ("invalid file number " ++ toString num ++ ". Use 'ls' to see available files")
    else
      .ok (files.get ⟨(num - 1).toNat, by omega⟩).Path
  | none =>
    match files.find? (fun f => f.RelPath == filename || f.Name == filename) with
    | some f => .ok f.Path
    | none => .error ("file not found: " ++ filename)

/-- The session's view of its collaborators (the core.Project, Renderer,
Builder and direct file reads the CLI struct holds): each query's result
as the interface would deliver it during this command. -/
structure CLIEnv where
  projPath : String
  projName : String
  isGo : Bool
  filesRes : Except String (List FileInfo)
  treeRes : Except String TreeNode
  readFile : String → Except String String
  renderTree : TreeNode → Except String (List String)
  renderFile : FileInfo → String → Except String (List String)
  buildRes : Except String Unit
  runRes : Except String Unit
  testRes : Except String Unit

/-- The CLI's cross-command mutable state: currentFile and the stored file
list (both zero-valued at construction). -/
structure CLIState where
  currentFile : String
  files : List FileInfo
deriving Repr, DecidableEq

def initialCLIState : CLIState := { currentFile := "", files := [] }

/-- Result of dispatching one command line: the handler's error (if any)
with the output printed so far, or the exit path (Go calls os.Exit(0)). -/
inductive ExecResult where
  | ok (st : CLIState) (out : List String)
  | err (st : CLIState) (out : List String) (e : String)
  | exit (out : List String)
deriving Repr, DecidableEq

/-- Width-2 right alignment of fmt's %2d for the listing numbers. -/
def pad2 (s : String) : String := if s.length < 2 then " " ++ s else s

/-- The 37-dash separator line of the listing (fmt prints it literally). -/
def listSeparator : String := String.mk (List.replicate 37 '─') ++ "\n"

def listingLines : Nat → List FileInfo → List String
  | _, [] => []
  | i, f :: rest =>
    ("  " ++ pad2 (toString (i + 1)) ++ ". " ++ GetIconForLanguage f.Language
      ++ " " ++ f.RelPath ++ "\n") :: listingLines (i + 1) rest

/-- Mirror of CLI.listFiles: on project error, propagate it with the state
untouched; on success replace the stored list wholesale and print the
numbered listing. -/
def listFilesCmd (env : CLIEnv) (st : CLIState) : ExecResult :=
  match env.filesRes with
  | .error e => .err st [] e
  | .ok fs =>
    .ok { st with files := fs }
      (["\n📁 Files in " ++ env.projName ++ ":\n", listSeparator]
        ++ listingLines 0 fs
        ++ [listSeparator, "Total: " ++ toString fs.length ++ " files\n\n"])

/-- Mirror of CLI.showTree: headers are printed before the renderer runs,
and a renderer failure is the handler's error. -/
def showTreeCmd (env : CLIEnv) (st : CLIState) : ExecResult :=
  match env.treeRes with
  | .error e => .err st [] e
  | .ok t =>
    let headers := ["\n🌳 Project Structure: " ++ env.projName ++ "\n",
      String.mk (List.replicate 63 '═') ++ "\n"]
    match env.renderTree t with
    | .error e => .err st headers e
    | .ok out => .ok st (headers ++ out)

/-- Mirror of CLI.openFile: resolve, then record the current file (no
content is read). -/
def openFileCmd (_env : CLIEnv) (st : CLIState) (filename : String) : ExecResult :=
  match resolveFile st.files filename with
  | .error e => .err st [] e
  | .ok filePath =>
    .ok { st with currentFile := filePath }
      ["✅ Opened: " ++ filename ++ "\n",
       "💡 Use 'cat " ++ filename ++ "' to view contents\n"]

def emptyFileInfo : FileInfo :=
  { Name := "", Path := "", RelPath := "", IsDir := false, Size := 0, ModTime := 0,
    Language := "" }

/-- Mirror of CLI.viewFile: resolve, look the resolved path up in the
stored list (zero FileInfo when absent), read the file directly from disk,
and render it. -/
def viewFileCmd (env : CLIEnv) (st : CLIState) (filename : String) : ExecResult :=
  match resolveFile st.files filename with
  | .error e => .err st [] e
  | .ok filePath =>
    let fileInfo := (st.files.find? (fun f => f.Path == filePath)).getD emptyFileInfo
    match env.readFile filePath with
    | .error e => .err st [] e
    | .ok content =>
      match env.renderFile fileInfo content with
      | .error e => .err st [] e
      | .ok out => .ok st out

def runProjectCmd (env : CLIEnv) (st : CLIState) : ExecResult :=
  match env.runRes with
  | .error e => .err st ["🏃 Running Go project...\n"] e
  | .ok _ => .ok st ["🏃 Running Go project...\n"]

def runTestsCmd (env : CLIEnv) (st : CLIState) : ExecResult :=
  match env.testRes with
  | .error e => .err st ["🧪 Running Go tests...\n"] e
  | .ok _ => .ok st ["🧪 Running Go tests...\n"]

def buildProjectCmd (env : CLIEnv) (st : CLIState) : ExecResult :=
  match env.buildRes with
  | .error e => .err st ["🔨 Building Go project...\n"] e
  | .ok _ => .ok st ["🔨 Building Go project...\n"]

def helpText : String := "help text (static command reference)"

def versionText : String := "version text (static build metadata)"

def goodbyeLine : String := "Goodbye! Thanks for using GoX IDE 🚀\n"

/-- Mirror of CLI.executeCommand: whitespace-tokenize the line, dispatch on
the first token (case-sensitive), default arm is the unknown-command
error.  The exit family prints the goodbye line and terminates the
process. -/
def executeCommand (env : CLIEnv) (st : CLIState) (command : String) : ExecResult :=
  match fields command with
  | [] => .ok st []
  | name :: args =>
    if name == "help" || name == "h" then .ok st [helpText]
    else if name == "ls" || name == "list" then listFilesCmd env st
    else if name == "tree" then showTreeCmd env st
    else if name == "open" || name == "o" then
      match args with
      | [] => .err st [] "usage: open <filename>"
      | a :: _ => openFileCmd env st a
    else if name == "cat" || name == "view" then
      match args with
      | [] => .err st [] "usage: cat <filename>"
      | a :: _ => viewFileCmd env st a
    else if name == "run" then runProjectCmd env st
    else if name == "test" then runTestsCmd env st
    else if name == "build" then buildProjectCmd env st
    else if name == "version" then .ok st [versionText]
    else if name == "exit" || name == "quit" || name == "q" then .exit [goodbyeLine]
    else .err st [] ("unknown command: " ++ name ++ " (type 'help' for commands)")

def promptString : String := "gox> "

def errorLine (e : String) : String := "❌ Error: " ++ e ++ "\n"

/-- Mirror of the read-eval-print loop in CLI.Run, driven by the list of
input lines the scanner will deliver (the ambient context is never
cancelled).  Each iteration prints the prompt; an empty trimmed line is
skipped; a handler error is rendered as an error line and the loop
continues; the exit family stops the process.  When input is exhausted the
scanner fails and Run returns. -/
def runLoop (env : CLIEnv) (st : CLIState) : List String → List String
  | [] => [promptString]
  | line :: rest =>
    let command := trimSpace line
    if command == "" then promptString :: runLoop env st rest
    else
      match executeCommand env st command with
      | .ok st2 out => promptString :: (out ++ runLoop env st2 rest)
      | .err st2 out e => promptString :: (out ++ (errorLine e :: runLoop env st2 rest))
      | .exit out => promptString :: out

/-- Mirror of CLI.showWelcome. -/
def welcomeLines (env : CLIEnv) : List String :=
  ["🚀 GoX IDE - A Go-native IDE built for speed!\n",
   "Project: " ++ env.projPath ++ "\n\n"]
  ++ (if env.isGo then ["🐹 Go project detected!\n"] else [])
  ++ ["💡 Type 'help' for available commands\n\n"]

/-- Mirror of CLI.Run: the welcome banner, then the loop from the freshly
constructed state. -/
def cliRun (env : CLIEnv) (inputs : List String) : List String :=
  welcomeLines env ++ runLoop env initialCLIState inputs

mutual
/-- The non-directory FileInfos of a tree, flattened over all descendants
(the claim's "flattened over all descendants" operator). -/
def treeFilesFlat : TreeNode → List FileInfo
  | .mk f cs _ _ => (if f.IsDir then [] else [f]) ++ forestFilesFlat cs

def forestFilesFlat : List TreeNode → List FileInfo
  | [] => []
  | c :: rest => treeFilesFlat c ++ forestFilesFlat rest
end

mutual
/-- Every node of a tree: the node itself and all descendants. -/
def allNodes : TreeNode → List TreeNode
  | .mk f cs l b => TreeNode.mk f cs l b :: allNodesList cs

def allNodesList : List TreeNode → List TreeNode
  | [] => []
  | c :: rest => allNodes c ++ allNodesList rest
end

/-- The closed extension table of GetLanguageForFile. -/
def knownExtensions : List String :=
  [".go", ".mod", ".sum", ".md", ".json", ".yaml", ".yml", ".toml", ".sh",
   ".py", ".js", ".ts", ".html", ".css"]

/-- The C1 scenario filesystem: go.mod, main.go, a hidden .git directory
(here holding one file) and vendor/pkg.go, in os.ReadDir order. -/
def c1Tree : FSTree := .dir "proj"
  [.dir ".git" [.file "config" "x"],
   .file "go.mod" "module m\n",
   .file "main.go" "package main\n",
   .dir "vendor" [.file "pkg.go" "package vendor\n"]]

def c1Proj : GoProject := { path := "/proj", name := "proj", rootTree := c1Tree }

/-- A root with one subdirectory holding one file. -/
def c2Tree : FSTree := .dir "proj" [.dir "src" [.file "main.go" "package main\n"]]

def c2Proj : GoProject := { path := "/proj", name := "proj", rootTree := c2Tree }

/-- A recognized Go project (go.mod present). -/
def goProj : GoProject :=
  { path := "/p", name := "p",
    rootTree := .dir "p" [.file "go.mod" "module p\n", .file "main.go" "package main\n"] }

/-- A directory without a go.mod descriptor. -/
def nonGoProj : GoProject :=
  { path := "/q", name := "q", rootTree := .dir "q" [.file "main.go" "package main\n"] }

/-- A subprocess environment in which every spawned command exits 0. -/
def okRunner : SpawnedCmd → Except String Unit := fun _ => .ok ()

/-- A stored file list containing an entry literally named "-3". -/
def demoFiles : List FileInfo :=
  [{ Name := "-3", Path := "/p/-3", RelPath := "-3", IsDir := false, Size := 0,
     ModTime := 0, Language := "text" },
   { Name := "main.go", Path := "/p/main.go", RelPath := "main.go", IsDir := false,
     Size := 1, ModTime := 0, Language := "go" }]

/-- A concrete session environment for witnesses. -/
def demoEnv : CLIEnv :=
  { projPath := "/p", projName := "p", isGo := true,
    filesRes := .ok demoFiles, treeRes := .error "no tree",
    readFile := fun _ => .error "no such file",
    renderTree := fun _ => .ok [],
    renderFile := fun _ _ => .ok ["rendered"],
    buildRes := .ok (), runRes := .error "exit status 1", testRes := .ok () }

/-- demoEnv with a failing Files() query. -/
def errEnv : CLIEnv := { demoEnv with filesRes := .error "walk failed" }

/-- A session state that has already stored a listing. -/
def listedState : CLIState := { currentFile := "", files := demoFiles }

/-- The child IsLast pattern Go's buildTree produces: exactly the final
element of a nonempty child list carries IsLast = true. -/
def lastFlagsOK : List TreeNode → Bool
  | [] => true
  | [c] => c.IsLast
  | c :: rest => !c.IsLast && lastFlagsOK rest

/-- The condition under which the walk callback of GoProject.Files appends
an entry (the three if branches of filesStep combined). -/
def keepB (info : FileInfo) : Bool :=
  !(hasPrefix info.Name "." && info.Name != ".") &&
  !(info.IsDir && (info.Name == "vendor" || info.Name == "node_modules")) &&
  (info.RelPath != "." && !info.IsDir)

/-- C1 counterexample: on the claim's own scenario filesystem (go.mod,
main.go, hidden .git/ with one file, vendor/pkg.go) IsGoProject is true
but Files() is not ["main.go"]: the walk callback returns nil rather than
fs.SkipDir for excluded directories, so their subtrees are still visited,
and nothing excludes go.mod. -/
theorem claim1_counterexample :
    c1Proj.IsGoProject = true ∧ (c1Proj.Files).map FileInfo.RelPath ≠ ["main.go"] := by
  decide

/-- C1 amended: on that scenario filesystem Files() returns go.mod,
main.go, vendor/pkg.go and the non-hidden-named files below .git/ (here
.git/config), in walk order; IsGoProject() returns true.  The exclusion
branches suppress only the matched entry itself, never its subtree. -/
theorem claim1_amended_scenario :
    c1Proj.IsGoProject = true ∧
    (c1Proj.Files).map FileInfo.RelPath =
      [".git/config", "go.mod", "main.go", "vendor/pkg.go"] := by
  decide

/-- C2 counterexample: for a root containing src/main.go, Files() reports
relative path "src/main.go" while the flattened FileTree() reports
"main.go" (ListFiles computes RelPath against the listed directory, not
the project root), so the two relative-path sets differ. -/
theorem claim2_counterexample :
    (c2Proj.Files).map FileInfo.RelPath = ["src/main.go"] ∧
    (treeFilesFlat c2Proj.FileTree).map FileInfo.RelPath = ["main.go"] ∧
    "src/main.go" ∉ (treeFilesFlat c2Proj.FileTree).map FileInfo.RelPath := by
  decide

/-- C3 counterexample: a stored entry literally named "-3" is never
name-matched: "-3" parses as an integer, so resolveFile returns the bounds
error instead of the entry's path, contradicting the claim's "otherwise"
(non-positive-integer strings fall back to name matching). -/
theorem claim3_counterexample :
    (∃ f ∈ demoFiles, f.Name = "-3" ∧ f.Path = "/p/-3") ∧
    resolveFile demoFiles "-3" =
      .error "invalid file number -3. Use 'ls' to see available files" ∧
    resolveFile demoFiles "-3" ≠ .ok "/p/-3" := by
  decide

/-- C6 counterexample: for a recognized project, Clean's `go clean`
subprocess runs in the project root but with none of the caller's
standard streams attached (builder.go sets only cmd.Dir for Clean), so
the claim's "stdout and stderr connected for each of the four operations"
fails for Clean. -/
theorem claim6_counterexample :
    goProj.IsGoProject = true ∧
    (GoBuilder.Clean okRunner goProj).spawned =
      [⟨["go", "clean"], "/p", false, false, false⟩] ∧
    ¬ (∀ c ∈ (GoBuilder.Clean okRunner goProj).spawned, c.stdoutToCaller = true) := by
  decide

/-- C5: whenever the target is not a recognized project (IsGoProject, i.e.
go.mod existence at the root, re-checked from the current filesystem state
on this very call), each of Build, Run, Test and Clean returns the
"not a Go project" error and spawns no subprocess (and removes no
artifact). -/
theorem claim5_invalid_project_rejected (runner : SpawnedCmd → Except String Unit)
    (p : GoProject) (h : p.IsGoProject = false) :
    GoBuilder.Build runner p = { spawned := [], removed := [], result := .error notAGoProject } ∧
    GoBuilder.Run runner p = { spawned := [], removed := [], result := .error notAGoProject } ∧
    GoBuilder.Test runner p = { spawned := [], removed := [], result := .error notAGoProject } ∧
    GoBuilder.Clean runner p = { spawned := [], removed := [], result := .error notAGoProject } := by
  simp [GoBuilder.Build, GoBuilder.Run, GoBuilder.Test, GoBuilder.Clean, h]

/-- C5 witness: the rejection at a concrete non-project directory. -/
theorem claim5_witness :
    nonGoProj.IsGoProject = false ∧
    GoBuilder.Build okRunner nonGoProj =
      { spawned := [], removed := [], result := .error notAGoProject } ∧
    GoBuilder.Run okRunner nonGoProj =
      { spawned := [], removed := [], result := .error notAGoProject } ∧
    GoBuilder.Test okRunner nonGoProj =
      { spawned := [], removed := [], result := .error notAGoProject } ∧
    GoBuilder.Clean okRunner nonGoProj =
      { spawned := [], removed := [], result := .error notAGoProject } :=
  ⟨by decide, claim5_invalid_project_rejected okRunner nonGoProj (by decide)⟩

/-- C6 amended: for every recognized project each operation spawns exactly
one subprocess with the fixed argument vector, working directory the
project root; Build/Run/Test attach the caller's stdout and stderr and Run
additionally stdin, but Clean's subprocess gets none of the caller's
streams. -/
theorem claim6_amended_spawns (runner : SpawnedCmd → Except String Unit)
    (p : GoProject) (h : p.IsGoProject = true) :
    (GoBuilder.Build runner p).spawned = [⟨["go", "build", "."], p.path, true, true, false⟩] ∧
    (GoBuilder.Run runner p).spawned = [⟨["go", "run", "."], p.path, true, true, true⟩] ∧
    (GoBuilder.Test runner p).spawned = [⟨["go", "test", "./..."], p.path, true, true, false⟩] ∧
    (GoBuilder.Clean runner p).spawned = [⟨["go", "clean"], p.path, false, false, false⟩] := by
  simp [GoBuilder.Build, GoBuilder.Run, GoBuilder.Test, GoBuilder.Clean, h]

/-- C6 witness: the four spawn vectors at a concrete recognized project. -/
theorem claim6_witness :
    goProj.IsGoProject = true ∧
    (GoBuilder.Build okRunner goProj).spawned = [⟨["go", "build", "."], "/p", true, true, false⟩] ∧
    (GoBuilder.Run okRunner goProj).spawned = [⟨["go", "run", "."], "/p", true, true, true⟩] ∧
    (GoBuilder.Test okRunner goProj).spawned = [⟨["go", "test", "./..."], "/p", true, true, false⟩] ∧
    (GoBuilder.Clean okRunner goProj).spawned = [⟨["go", "clean"], "/p", false, false, false⟩] :=
  ⟨by decide, claim6_amended_spawns okRunner goProj (by decide)⟩

/-- C9: a reference string that parses as an integer below 1 always yields
the bounds error naming that integer, for every stored list — name
matching is never reached, even if an entry's name or relative path is
exactly that string. -/
theorem claim9_nonpositive_never_name_matched (files : List FileInfo) (s : String)
    (n : Int) (h1 : strconvAtoi s = some n) (h2 : n < 1) :
    resolveFile files s =
      .error ("invalid file number " ++ toString n ++ ". Use 'ls' to see available files") := by
  unfold resolveFile
  rw [h1]
  exact dif_pos (Or.inl h2)

/-- C9 witness: "-3" against a list whose first entry is named "-3". -/
theorem claim9_witness :
    resolveFile demoFiles "-3" =
      .error ("invalid file number " ++ toString (-3 : Int) ++
        ". Use 'ls' to see available files") :=
  claim9_nonpositive_never_name_matched demoFiles "-3" (-3) (by decide) (by decide)

/-- C10: when Project.Files() fails, both spellings of the listing command
propagate the error and return with the session state — in particular the
stored file list — exactly as it was. -/
theorem claim10_failed_listing_atomic (env : CLIEnv) (st : CLIState) (e : String)
    (h : env.filesRes = .error e) :
    executeCommand env st "ls" = .err st [] e ∧
    executeCommand env st "list" = .err st [] e := by
  have hls : executeCommand env st "ls" = listFilesCmd env st := rfl
  have hlist : executeCommand env st "list" = listFilesCmd env st := rfl
  rw [hls, hlist]
  simp [listFilesCmd, h]

/-- C10 witness: a failing listing against a state that already stored a
two-entry list leaves that list in place. -/
theorem claim10_witness :
    executeCommand errEnv listedState "ls" = .err listedState [] "walk failed" ∧
    listedState.files = demoFiles :=
  ⟨(claim10_failed_listing_atomic errEnv listedState "walk failed" (by decide)).1, rfl⟩

/-- C7: GetLanguageForFile depends only on the lower-cased extension
(filepath.Ext) of its argument — case-insensitively — and any extension
outside the closed table (including the empty extension of a dotless
filename) yields "text". -/
theorem claim7_language_classification :
    (∀ f g : String, strToLower (filepathExt f) = strToLower (filepathExt g) →
      GetLanguageForFile f = GetLanguageForFile g) ∧
    (∀ f : String, strToLower (filepathExt f) ∉ knownExtensions →
      GetLanguageForFile f = "text") := by
  constructor
  · intro f g h
    unfold GetLanguageForFile
    rw [h]
  · intro f h
    simp only [knownExtensions, List.mem_cons, List.not_mem_nil, or_false, not_or] at h
    obtain ⟨h1, h2, h3, h4, h5, h6, h7, h8, h9, h10, h11, h12, h13, h14⟩ := h
    unfold GetLanguageForFile
    simp [h1, h2, h3, h4, h5, h6, h7, h8, h9, h10, h11, h12, h13, h14]

/-- C7 witness: case-insensitive lookup and the default at concrete
filenames. -/
theorem claim7_witness :
    GetLanguageForFile "a.GO" = GetLanguageForFile "b.go" ∧
    GetLanguageForFile "README" = "text" :=
  ⟨claim7_language_classification.1 "a.GO" "b.go" (by decide),
   claim7_language_classification.2 "README" (by decide)⟩

/-- C3 amended: any string that strconv.Atoi accepts — positive or not —
is treated as an index: in-range it yields that entry's path, otherwise
the bounds error; only strings that do not parse as an integer are
name-matched (first entry whose RelPath or Name equals the string), with
"file not found" when nothing matches; and against the empty initial list
every reference fails. -/
theorem claim3_amended_resolution :
    (∀ (files : List FileInfo) (s : String) (n : Int) (h4 : (n - 1).toNat < files.length),
      strconvAtoi s = some n → 1 ≤ n → n ≤ (files.length : Int) →
      resolveFile files s = .ok ((files.get ⟨(n - 1).toNat, h4⟩).Path)) ∧
    (∀ (files : List FileInfo) (s : String) (n : Int),
      strconvAtoi s = some n → (n < 1 ∨ (files.length : Int) < n) →
      resolveFile files s =
        .error ("invalid file number " ++ toString n ++ ". Use 'ls' to see available files")) ∧
    (∀ (files : List FileInfo) (s : String) (f : FileInfo),
      strconvAtoi s = none →
      files.find? (fun f => f.RelPath == s || f.Name == s) = some f →
      resolveFile files s = .ok f.Path) ∧
    (∀ (files : List FileInfo) (s : String),
      strconvAtoi s = none →
      files.find? (fun f => f.RelPath == s || f.Name == s) = none →
      resolveFile files s = .error ("file not found: " ++ s)) ∧
    (∀ s : String, ∃ e, resolveFile [] s = .error e) := by
  refine ⟨?_, ?_, ?_, ?_, ?_⟩
  · intro files s n h4 h1 h2 h3
    unfold resolveFile
    rw [h1]
    exact dif_neg (by omega)
  · intro files s n h1 h2
    unfold resolveFile
    rw [h1]
    exact dif_pos h2
  · intro files s f h1 h2
    unfold resolveFile
    rw [h1, h2]
  · intro files s h1 h2
    unfold resolveFile
    rw [h1, h2]
  · intro s
    unfold resolveFile
    cases hA : strconvAtoi s with
    | some n => exact ⟨_, dif_pos (by simp; omega)⟩
    | none => exact ⟨_, rfl⟩

/-- C3 witness: index hit, bounds miss, name hit, name miss, and the
empty-list failure, all at concrete inputs. -/
theorem claim3_witness :
    resolveFile demoFiles "2" = .ok "/p/main.go" ∧
    resolveFile demoFiles "5" =
      .error ("invalid file number " ++ toString (5 : Int) ++
        ". Use 'ls' to see available files") ∧
    resolveFile demoFiles "main.go" = .ok "/p/main.go" ∧
    resolveFile demoFiles "nope.go" = .error ("file not found: " ++ "nope.go") ∧
    (∃ e, resolveFile [] "1" = .error e) :=
  ⟨claim3_amended_resolution.1 demoFiles "2" 2 (by decide) (by decide) (by decide) (by decide),
   claim3_amended_resolution.2.1 demoFiles "5" 5 (by decide) (by decide),
   claim3_amended_resolution.2.2.1 demoFiles "main.go"
     { Name := "main.go", Path := "/p/main.go", RelPath := "main.go", IsDir := false,
       Size := 1, ModTime := 0, Language := "go" } (by decide) (by decide),
   claim3_amended_resolution.2.2.2.1 demoFiles "nope.go" (by decide) (by decide),
   claim3_amended_resolution.2.2.2.2 "1"⟩

theorem listFilesCmd_ne_exit (env : CLIEnv) (st : CLIState) (out : List String) :
    listFilesCmd env st ≠ .exit out := by
  unfold listFilesCmd
  split <;> simp

theorem showTreeCmd_ne_exit (env : CLIEnv) (st : CLIState) (out : List String) :
    showTreeCmd env st ≠ .exit out := by
  unfold showTreeCmd
  split
  · simp
  · split <;> simp

theorem openFileCmd_ne_exit (env : CLIEnv) (st : CLIState) (a : String) (out : List String) :
    openFileCmd env st a ≠ .exit out := by
  unfold openFileCmd
  split <;> simp

theorem viewFileCmd_ne_exit (env : CLIEnv) (st : CLIState) (a : String) (out : List String) :
    viewFileCmd env st a ≠ .exit out := by
  unfold viewFileCmd
  split
  · simp
  · split
    · simp
    · dsimp only
      split <;> simp

theorem runProjectCmd_ne_exit (env : CLIEnv) (st : CLIState) (out : List String) :
    runProjectCmd env st ≠ .exit out := by
  unfold runProjectCmd
  split <;> simp

theorem runTestsCmd_ne_exit (env : CLIEnv) (st : CLIState) (out : List String) :
    runTestsCmd env st ≠ .exit out := by
  unfold runTestsCmd
  split <;> simp

theorem buildProjectCmd_ne_exit (env : CLIEnv) (st : CLIState) (out : List String) :
    buildProjectCmd env st ≠ .exit out := by
  unfold buildProjectCmd
  split <;> simp

/-- C8: a handler failure is rendered as an error line and the loop goes
on to the next input line with the handler's resulting state — and the
only dispatch outcome that terminates the session is the exit family
(first token "exit", "quit" or "q"); no handler error ever does. -/
theorem claim8_errors_never_terminate :
    (∀ (env : CLIEnv) (st st2 : CLIState) (line : String) (rest : List String)
        (out : List String) (e : String),
      executeCommand env st (trimSpace line) = .err st2 out e →
      runLoop env st (line :: rest) =
        promptString :: (out ++ (errorLine e :: runLoop env st2 rest))) ∧
    (∀ (env : CLIEnv) (st : CLIState) (c : String) (out : List String),
      executeCommand env st c = .exit out →
      ∃ name args, fields c = name :: args ∧
        (name = "exit" ∨ name = "quit" ∨ name = "q")) := by
  constructor
  · intro env st st2 line rest out e h
    by_cases hemp : trimSpace line = ""
    · rw [hemp] at h
      have hok : executeCommand env st "" = .ok st [] := rfl
      rw [hok] at h
      exact absurd h (by simp)
    · simp only [runLoop]
      rw [if_neg (by simpa using hemp), h]
  · intro env st c out h
    unfold executeCommand at h
    split at h
    · exact absurd h (by simp)
    · rename_i name args hfe
      by_cases h1 : (name == "help" || name == "h") = true
      · rw [if_pos h1] at h
        exact absurd h (by simp)
      rw [if_neg h1] at h
      by_cases h2 : (name == "ls" || name == "list") = true
      · rw [if_pos h2] at h
        exact absurd h (listFilesCmd_ne_exit env st out)
      rw [if_neg h2] at h
      by_cases h3 : (name == "tree") = true
      · rw [if_pos h3] at h
        exact absurd h (showTreeCmd_ne_exit env st out)
      rw [if_neg h3] at h
      by_cases h4 : (name == "open" || name == "o") = true
      · rw [if_pos h4] at h
        revert h
        split
        · intro h; exact absurd h (by simp)
        · intro h; exact absurd h (openFileCmd_ne_exit env st _ out)
      rw [if_neg h4] at h
      by_cases h5 : (name == "cat" || name == "view") = true
      · rw [if_pos h5] at h
        revert h
        split
        · intro h; exact absurd h (by simp)
        · intro h; exact absurd h (viewFileCmd_ne_exit env st _ out)
      rw [if_neg h5] at h
      by_cases h6 : (name == "run") = true
      · rw [if_pos h6] at h
        exact absurd h (runProjectCmd_ne_exit env st out)
      rw [if_neg h6] at h
      by_cases h7 : (name == "test") = true
      · rw [if_pos h7] at h
        exact absurd h (runTestsCmd_ne_exit env st out)
      rw [if_neg h7] at h
      by_cases h8 : (name == "build") = true
      · rw [if_pos h8] at h
        exact absurd h (buildProjectCmd_ne_exit env st out)
      rw [if_neg h8] at h
      by_cases h9 : (name == "version") = true
      · rw [if_pos h9] at h
        exact absurd h (by simp)
      rw [if_neg h9] at h
      by_cases h10 : (name == "exit" || name == "quit" || name == "q") = true
      · refine ⟨name, args, hfe, ?_⟩
        have h11 := h10
        simp only [Bool.or_eq_true, beq_iff_eq] at h11
        tauto
      rw [if_neg h10] at h
      exact absurd h (by simp)

/-- C8 witness: an unknown command produces an error line and the loop
prompts again. -/
theorem claim8_witness :
    runLoop demoEnv initialCLIState ["bogus"] =
      [promptString, errorLine "unknown command: bogus (type 'help' for commands)",
       promptString] := by
  have hcmd : executeCommand demoEnv initialCLIState (trimSpace "bogus") =
      .err initialCLIState [] "unknown command: bogus (type 'help' for commands)" := by decide
  have h := claim8_errors_never_terminate.1 demoEnv initialCLIState initialCLIState "bogus"
    [] [] "unknown command: bogus (type 'help' for commands)" hcmd
  simpa using h

theorem buildList_nil_iff (cs : List FSTree) (path : String) (level : Nat) :
    buildList cs path level = [] ↔ cs.any keepVisible = false := by
  induction cs with
  | nil => simp [buildList]
  | cons c rest ih =>
    cases hk : keepVisible c with
    | false => simp [buildList, hk, ih]
    | true => simp [buildList, hk]

theorem buildList_level_of_mem (cs : List FSTree) (path : String) (level : Nat)
    (n : TreeNode) (hn : n ∈ buildList cs path level) : n.Level = level + 1 := by
  induction cs with
  | nil => simp [buildList] at hn
  | cons c rest ih =>
    cases hk : keepVisible c with
    | false =>
      simp only [buildList, hk, Bool.false_eq_true, if_false] at hn
      exact ih hn
    | true =>
      simp only [buildList, hk, if_true] at hn
      rcases List.mem_cons.mp hn with rfl | h
      · rfl
      · exact ih h

theorem buildList_lastFlags (cs : List FSTree) (path : String) (level : Nat) :
    lastFlagsOK (buildList cs path level) = true := by
  induction cs with
  | nil => rfl
  | cons c rest ih =>
    cases hk : keepVisible c with
    | false =>
      simp only [buildList, hk, Bool.false_eq_true, if_false]
      exact ih
    | true =>
      simp only [buildList, hk, if_true]
      cases hrest : buildList rest path level with
      | nil =>
        have hany : rest.any keepVisible = false := (buildList_nil_iff rest path level).mp hrest
        simp [lastFlagsOK, hany, TreeNode.IsLast]
      | cons x xs =>
        have hany : rest.any keepVisible = true := by
          by_contra hcon
          have hfalse : rest.any keepVisible = false := by simpa using hcon
          have hnil := (buildList_nil_iff rest path level).mpr hfalse
          rw [hrest] at hnil
          cases hnil
        rw [hrest] at ih
        simp [lastFlagsOK, hany, TreeNode.IsLast, ih]

theorem lastFlagsOK_get : ∀ (L : List TreeNode), lastFlagsOK L = true →
    ∀ (i : Nat) (h : i < L.length),
    (L.get ⟨i, h⟩).IsLast = decide (i = L.length - 1) := by
  intro L
  induction L with
  | nil => intro _ i h; simp at h
  | cons c rest ih =>
    intro hf i h
    cases rest with
    | nil =>
      have hc : c.IsLast = true := by simpa [lastFlagsOK] using hf
      have hi : i = 0 := by
        simp only [List.length_cons, List.length_nil] at h
        omega
      subst hi
      simp [hc]
    | cons d rest2 =>
      have hf2 : c.IsLast = false ∧ lastFlagsOK (d :: rest2) = true := by
        have hx := hf
        simp only [lastFlagsOK, Bool.and_eq_true, Bool.not_eq_true'] at hx
        exact hx
      cases i with
      | zero => simp [hf2.1]
      | succ j =>
        have hj : j < (d :: rest2).length := by simpa using h
        have hrec := ih hf2.2 j hj
        rw [show ((c :: d :: rest2).get ⟨j + 1, h⟩) = (d :: rest2).get ⟨j, hj⟩ from rfl]
        rw [hrec, decide_eq_decide]
        simp only [List.length_cons]
        omega

theorem allNodesList_buildList_decomp (cs : List FSTree) (path : String) (level : Nat)
    (n : TreeNode) (hn : n ∈ allNodesList (buildList cs path level)) :
    ∃ c, c ∈ cs ∧ keepVisible c = true ∧
      ((∃ b, n = TreeNode.mk (listEntryInfo path c) (buildSub c path level) (level + 1) b) ∨
        n ∈ allNodesList (buildSub c path level)) := by
  induction cs with
  | nil => simp [buildList, allNodesList] at hn
  | cons c rest ih =>
    cases hk : keepVisible c with
    | false =>
      simp only [buildList, hk, Bool.false_eq_true, if_false] at hn
      obtain ⟨c2, hc2, hkc2, hres⟩ := ih hn
      exact ⟨c2, List.mem_cons_of_mem c hc2, hkc2, hres⟩
    | true =>
      simp only [buildList, hk, if_true, allNodesList, allNodes, List.mem_append,
        List.mem_cons] at hn
      rcases hn with (rfl | hsub) | hrest
      · exact ⟨c, List.mem_cons_self c rest, hk, Or.inl ⟨_, rfl⟩⟩
      · exact ⟨c, List.mem_cons_self c rest, hk, Or.inr hsub⟩
      · obtain ⟨c2, hc2, hkc2, hres⟩ := ih hrest
        exact ⟨c2, List.mem_cons_of_mem c hc2, hkc2, hres⟩

theorem buildList_nodes_inv : ∀ (N : Nat) (cs : List FSTree), sizeOf cs ≤ N →
    ∀ (path : String) (level : Nat) (n : TreeNode),
    n ∈ allNodesList (buildList cs path level) →
    (∀ ch ∈ n.Children, ch.Level = n.Level + 1) ∧ lastFlagsOK n.Children = true := by
  intro N
  induction N with
  | zero =>
    intro cs hcs
    exfalso
    cases cs with
    | nil => simp at hcs
    | cons a as => simp at hcs
  | succ N ih =>
    intro cs hcs path level n hn
    obtain ⟨c, hc, hkc, hres⟩ := allNodesList_buildList_decomp cs path level n hn
    have hszc : sizeOf c < sizeOf cs := List.sizeOf_lt_of_mem hc
    rcases hres with ⟨b, rfl⟩ | hsub
    · constructor
      · intro ch hch
        cases c with
        | file nm content => simp [buildSub, TreeNode.Children] at hch
        | dir nm cs2 =>
          have hlv := buildList_level_of_mem cs2 (joinPath path nm) (level + 1) ch
            (by simpa [buildSub, TreeNode.Children] using hch)
          exact hlv
      · cases c with
        | file nm content => rfl
        | dir nm cs2 =>
          simp only [TreeNode.Children, buildSub]
          exact buildList_lastFlags cs2 (joinPath path nm) (level + 1)
    · cases c with
      | file nm content => simp [buildSub, allNodesList] at hsub
      | dir nm cs2 =>
        have hsz2 : sizeOf cs2 ≤ N := by
          have h1 : sizeOf cs2 < sizeOf (FSTree.dir nm cs2) := by
            simp only [FSTree.dir.sizeOf_spec]
            omega
          omega
        exact ih cs2 hsz2 (joinPath path nm) (level + 1) n
          (by simpa [buildSub] using hsub)

/-- C4: every tree FileTree() returns has root level 0 with relative path
".", every node's children sit exactly one level below it, and within each
node's (post-filter) child sequence IsLast holds for exactly the final
child — vacuously for childless nodes. -/
theorem claim4_tree_invariants (p : GoProject) :
    (p.FileTree).Level = 0 ∧ (p.FileTree).File.RelPath = "." ∧
    ∀ n ∈ allNodes p.FileTree,
      (∀ ch ∈ n.Children, ch.Level = n.Level + 1) ∧
      (∀ (i : Nat) (h : i < n.Children.length),
        (n.Children.get ⟨i, h⟩).IsLast = decide (i = n.Children.length - 1)) := by
  refine ⟨rfl, rfl, ?_⟩
  intro n hn
  have hall : allNodes p.FileTree =
      p.FileTree :: allNodesList (buildList p.rootTree.entries p.path 0) := rfl
  rw [hall] at hn
  rcases List.mem_cons.mp hn with rfl | hmem
  · constructor
    · intro ch hch
      have := buildList_level_of_mem p.rootTree.entries p.path 0 ch hch
      simpa using this
    · exact lastFlagsOK_get _ (buildList_lastFlags p.rootTree.entries p.path 0)
  · obtain ⟨hlv, hfl⟩ := buildList_nodes_inv (sizeOf p.rootTree.entries)
      p.rootTree.entries le_rfl p.path 0 n hmem
    exact ⟨hlv, lastFlagsOK_get _ hfl⟩

/-- C4 witness: the root facts at a concrete project. -/
theorem claim4_witness :
    (c1Proj.FileTree).Level = 0 ∧ (c1Proj.FileTree).File.RelPath = "." :=
  ⟨(claim4_tree_invariants c1Proj).1, (claim4_tree_invariants c1Proj).2.1⟩

theorem filesStep_eq (acc : List FileInfo) (info : FileInfo) :
    filesStep acc info = if keepB info then acc ++ [info] else acc := by
  unfold filesStep keepB
  cases h1 : (hasPrefix info.Name "." && info.Name != ".") <;>
    cases h2 : (info.IsDir && (info.Name == "vendor" || info.Name == "node_modules")) <;>
      cases h3 : (info.RelPath != "." && !info.IsDir) <;> simp [h1, h2, h3]

theorem foldl_filesStep (l : List FileInfo) : ∀ acc : List FileInfo,
    l.foldl filesStep acc = acc ++ l.filter keepB := by
  induction l with
  | nil => intro acc; simp
  | cons i rest ih =>
    intro acc
    simp only [List.foldl_cons, List.filter_cons]
    rw [filesStep_eq]
    cases hk : keepB i with
    | true => simp [ih]
    | false => simp [ih]

theorem string_length_zero (s : String) (h : s.length = 0) : s = "" := by
  cases s with
  | mk data =>
    have hd : data = [] := List.length_eq_zero.mp h
    rw [hd]

theorem relJoin_ne_dot (r n : String) (h : hasPrefix n "." = false) : relJoin r n ≠ "." := by
  unfold relJoin
  by_cases hr : (r == ".") = true
  · rw [if_pos hr]
    intro hn
    subst hn
    simp [hasPrefix, hasPrefixL] at h
  · rw [if_neg hr]
    intro hcon
    have hlen := congrArg String.length hcon
    have hslash : ("/" : String).length = 1 := rfl
    have hdot : ("." : String).length = 1 := rfl
    rw [String.length_append, String.length_append, hslash, hdot] at hlen
    have hr0 : r = "" := string_length_zero r (by omega)
    have hn0 : n = "" := string_length_zero n (by omega)
    subst hr0
    subst hn0
    exact absurd hcon (by decide)

theorem buildList_paths_sub : ∀ (N : Nat) (cs : List FSTree), sizeOf cs ≤ N →
    ∀ (path rel : String) (level : Nat) (q : String),
    q ∈ (forestFilesFlat (buildList cs path level)).map FileInfo.Path →
    q ∈ ((walkInfosList cs path rel).filter keepB).map FileInfo.Path := by
  intro N
  induction N with
  | zero =>
    intro cs hcs
    exfalso
    cases cs with
    | nil => simp at hcs
    | cons a as => simp at hcs
  | succ N ih =>
    intro cs hcs path rel level q hq
    cases cs with
    | nil => simp [buildList, forestFilesFlat] at hq
    | cons c rest =>
      have hc1 : 1 ≤ sizeOf c := by cases c <;> simp_arith
      have hrest_le : sizeOf rest ≤ N := by
        simp only [List.cons.sizeOf_spec] at hcs
        omega
      have hsplit : walkInfosList (c :: rest) path rel =
          walkInfos c (joinPath path c.nm) (relJoin rel c.nm) ++ walkInfosList rest path rel := rfl
      rw [hsplit]
      simp only [List.filter_append, List.map_append, List.mem_append]
      cases hk : keepVisible c with
      | false =>
        have hq2 : q ∈ (forestFilesFlat (buildList rest path level)).map FileInfo.Path := by
          simpa [buildList, hk] using hq
        exact Or.inr (ih rest hrest_le path rel level q hq2)
      | true =>
        have hkparts : hasPrefix c.nm "." = false := by
          simp only [keepVisible, Bool.and_eq_true, Bool.not_eq_true'] at hk
          exact hk.1.1
        have hq2 : q ∈ (treeFilesFlat (TreeNode.mk (listEntryInfo path c)
              (buildSub c path level) (level + 1) (!(rest.any keepVisible)))).map FileInfo.Path ∨
            q ∈ (forestFilesFlat (buildList rest path level)).map FileInfo.Path := by
          have := hq
          simp only [buildList, hk, if_true, forestFilesFlat, List.map_append,
            List.mem_append] at this
          exact this
        rcases hq2 with hleft | hright
        · left
          cases c with
          | file nm content =>
            have hqe : q = (listEntryInfo path (FSTree.file nm content)).Path := by
              simpa [treeFilesFlat, listEntryInfo, FSTree.isDir, buildSub,
                forestFilesFlat, TreeNode.File, TreeNode.Children] using hleft
            have hwalk : walkInfos (FSTree.file nm content)
                (joinPath path (FSTree.file nm content).nm)
                (relJoin rel (FSTree.file nm content).nm) =
                [walkInfo nm (joinPath path nm) (relJoin rel nm) false content.length] := rfl
            rw [hwalk]
            have hkp2 : hasPrefix nm "." = false := by simpa [FSTree.nm] using hkparts
            have hne := relJoin_ne_dot rel nm hkp2
            have hkb : keepB (walkInfo nm (joinPath path nm) (relJoin rel nm)
                false content.length) = true := by
              simp [keepB, walkInfo, hkp2, bne_iff_ne, hne]
            simp only [List.filter_cons, hkb, if_true, List.filter_nil]
            simp [hqe, listEntryInfo, walkInfo, FSTree.nm]
          | dir nm cs2 =>
            have hq3 : q ∈ (forestFilesFlat (buildList cs2
                (joinPath path (FSTree.dir nm cs2).nm) (level + 1))).map FileInfo.Path := by
              simpa [treeFilesFlat, listEntryInfo, FSTree.isDir, buildSub,
                forestFilesFlat, TreeNode.File, TreeNode.Children, FSTree.nm] using hleft
            have hsz2 : sizeOf cs2 ≤ N := by
              simp only [List.cons.sizeOf_spec, FSTree.dir.sizeOf_spec] at hcs
              omega
            have hrec := ih cs2 hsz2 (joinPath path (FSTree.dir nm cs2).nm)
              (relJoin rel (FSTree.dir nm cs2).nm) (level + 1) q hq3
            have hwalk : walkInfos (FSTree.dir nm cs2)
                (joinPath path (FSTree.dir nm cs2).nm)
                (relJoin rel (FSTree.dir nm cs2).nm) =
                walkInfo nm (joinPath path nm) (relJoin rel nm) true 0 ::
                  walkInfosList cs2 (joinPath path nm) (relJoin rel nm) := rfl
            rw [hwalk]
            simp only [List.filter_cons]
            cases keepB (walkInfo nm (joinPath path nm) (relJoin rel nm) true 0) with
            | true =>
              simp only [if_true, List.map_cons, List.mem_cons]
              right
              simpa [FSTree.nm] using hrec
            | false =>
              simp only [Bool.false_eq_true, if_false]
              simpa [FSTree.nm] using hrec
        · exact Or.inr (ih rest hrest_le path rel level q hright)

/-- C2 amended: the absolute paths of the non-directory entries in the
flattened FileTree() are always a subset of the absolute paths returned
by Files().  Equality of the relative-path sets fails in general: tree
nodes carry RelPath relative to their immediate parent directory rather
than the project root, and Files() descends into hidden/vendor subtrees
(and applies the vendor name check only to directories) while FileTree()
prunes them. -/
theorem claim2_amended_tree_subset (p : GoProject) (q : String)
    (h : q ∈ (treeFilesFlat p.FileTree).map FileInfo.Path) :
    q ∈ (p.Files).map FileInfo.Path := by
  have hfiles : p.Files = (walkInfos p.rootTree p.path ".").filter keepB := by
    unfold GoProject.Files
    rw [foldl_filesStep]
    simp
  rw [hfiles]
  have hflat : treeFilesFlat p.FileTree =
      forestFilesFlat (buildList p.rootTree.entries p.path 0) := rfl
  rw [hflat] at h
  cases hroot : p.rootTree with
  | file nm content =>
    rw [hroot] at h
    simp [FSTree.entries, buildList, forestFilesFlat] at h
  | dir nm cs =>
    rw [hroot] at h
    have hsub := buildList_paths_sub (sizeOf cs) cs le_rfl p.path "." 0 q
      (by simpa [FSTree.entries] using h)
    have hw : walkInfos (FSTree.dir nm cs) p.path "." =
        walkInfo nm p.path "." true 0 :: walkInfosList cs p.path "." := rfl
    rw [hw]
    have hkb : keepB (walkInfo nm p.path "." true 0) = false := by
      simp [keepB, walkInfo]
    simp only [List.filter_cons, hkb, Bool.false_eq_true, if_false]
    exact hsub

/-- C2 witness: the nested file of the concrete project appears in both
collections by absolute path. -/
theorem claim2_witness : "/proj/src/main.go" ∈ (c2Proj.Files).map FileInfo.Path :=
  claim2_amended_tree_subset c2Proj "/proj/src/main.go" (by decide)
